import Mathlib

/-!
Shallow embedding of the gophermart loyalty-points backend
(repositories over PostgreSQL, order/balance use cases, the accrual
client and the reconciliation worker), with theorems checking the
specification's claims against the embedded code.

Monetary values are `float64` in the source; the claims under study
concern ledger logic (which rows are credited or debited, and by how
much), not floating-point rounding, so money is embedded as exact
rationals.
-/

set_option maxRecDepth 8192

namespace Gophermart

/-- Money values (Go `float64`), embedded as exact rationals. -/
abbrev Money := Rat

/-- Order lifecycle status (`internal/domain/model`, `OrderStatus`). -/
inductive OrderStatus where
  | NEW
  | PROCESSING
  | INVALID
  | PROCESSED
deriving DecidableEq, Repr

/-- Row of the `orders` table (`model.Order`). Timestamps are abstract integers. -/
structure Order where
  id : Int
  userId : Int
  number : String
  status : OrderStatus
  accrual : Option Money
  uploadedAt : Int
  updatedAt : Int
deriving DecidableEq, Repr

/-- Row of the `balances` table (`model.BalanceSummary` persisted per user;
`user_id` is the primary key). -/
structure BalanceRow where
  userId : Int
  current : Money
  withdrawn : Money
deriving DecidableEq, Repr

/-- Row of the append-only `withdrawals` table (`model.Withdrawal`). -/
structure Withdrawal where
  id : Int
  userId : Int
  orderNumber : String
  sum : Money
  processedAt : Int
deriving DecidableEq, Repr

/-- The persistent state the repositories act on: the three tables the
claims are about (the `users` table plays no role in them). -/
structure DB where
  orders : List Order
  balances : List BalanceRow
  withdrawals : List Withdrawal
deriving DecidableEq, Repr

/-- Domain error alphabet (`internal/domain/errors`); `noRows` stands for the
raw `pgx.ErrNoRows` where the source lets it escape unmapped. -/
inductive DomainError where
  | alreadyExists
  | notFound
  | invalidOrderNumber
  | invalidAmount
  | insufficientBalance
  | noRows
deriving DecidableEq, Repr

/-! ## Luhn validation (`internal/usecase/validation.go`, `ValidateOrderNumber`)

The Go loop walks the string byte-wise from the last character to the first;
a non-digit byte aborts with `false`.  `luhnSum` processes the reversed
character list, returning `none` on the first non-digit. -/

/-- One loop iteration of `ValidateOrderNumber`: contribution of character
`c` given the alternation flag, or `none` when `c` is not an ASCII digit. -/
def luhnStep (c : Char) (alt : Bool) : Option Nat :=
  if c.isDigit then
    let d := c.toNat - 48
    some (if alt then (if d * 2 > 9 then d * 2 - 9 else d * 2) else d)
  else none

/-- Checksum accumulation over the reversed digit list, starting from
alternation flag `alt`; `none` when a non-digit occurs. -/
def luhnSum : List Char → Bool → Option Nat
  | [], _ => some 0
  | c :: rest, alt =>
    match luhnStep c alt, luhnSum rest (!alt) with
    | some d, some s => some (d + s)
    | _, _ => none

/-- `ValidateOrderNumber` from `internal/usecase/validation.go`: empty string
fails; any non-digit fails; otherwise the Luhn mod-10 check decides. -/
def ValidateOrderNumber (number : String) : Bool :=
  if number.data = [] then false
  else
    match luhnSum number.data.reverse false with
    | some s => s % 10 == 0
    | none => false

example : ValidateOrderNumber "79927398713" = true := by decide
example : ValidateOrderNumber "79927398710" = false := by decide
example : ValidateOrderNumber "" = false := by decide
example : ValidateOrderNumber "abcdef" = false := by decide

/-! ## Order repository (`internal/storage/postgres`, `orderRepository`) -/

/-- Lookup by the unique `number` column (`GetByNumber`). -/
def findOrderByNumber (db : DB) (number : String) : Option Order :=
  db.orders.find? (fun o => o.number == number)

/-- Fresh `SERIAL` id for an inserted order row. -/
def nextOrderId (db : DB) : Int :=
  (db.orders.map Order.id).foldr max 0 + 1

/-- `orderRepository.Create`: `INSERT ... ON CONFLICT (number) DO NOTHING
RETURNING ...`; on conflict, look the existing row up and compare owners.
The result mirrors the Go triple `(*model.Order, bool, error)`. -/
def ordersCreate (db : DB) (userID : Int) (number : String) (now : Int) :
    (Option Order × Bool × Option DomainError) × DB :=
  match findOrderByNumber db number with
  | none =>
      let o : Order :=
        { id := nextOrderId db, userId := userID, number := number,
          status := .NEW, accrual := none, uploadedAt := now, updatedAt := now }
      ((some o, true, none), { db with orders := db.orders ++ [o] })
  | some existing =>
      if existing.userId == userID then ((some existing, false, none), db)
      else ((some existing, false, some .alreadyExists), db)

/-- Effect of `UPDATE orders SET status=$1, accrual=$2, updated_at=NOW()`
on one row. -/
def setOrderRow (o : Order) (status : OrderStatus) (accrual : Option Money) (now : Int) : Order :=
  { o with status := status, accrual := accrual, updatedAt := now }

/-- `Storage.addAccrualTx`: `INSERT INTO balances (user_id, current, withdrawn)
VALUES ($1, $2, 0) ON CONFLICT (user_id) DO UPDATE SET
current = balances.current + EXCLUDED.current`. -/
def addAccrualTx (db : DB) (userID : Int) (sum : Money) : DB :=
  if db.balances.any (fun b => b.userId == userID) then
    { db with
      balances := db.balances.map (fun b =>
        if b.userId == userID then { b with current := b.current + sum } else b) }
  else
    { db with balances := db.balances ++ [{ userId := userID, current := sum, withdrawn := 0 }] }

/-- `orderRepository.UpdateStatus`: inside one transaction, overwrite the
row's status and accrual; when the new status is `PROCESSED` with a
positive accrual, read the row's owner and credit the owner's balance.
A failing owner lookup (`pgx.ErrNoRows`) rolls the transaction back. -/
def ordersUpdateStatus (db : DB) (orderID : Int) (status : OrderStatus)
    (accrual : Option Money) (now : Int) : Option DomainError × DB :=
  let db1 : DB :=
    { db with
      orders := db.orders.map (fun o =>
        if o.id == orderID then setOrderRow o status accrual now else o) }
  match status, accrual with
  | .PROCESSED, some a =>
      if 0 < a then
        match db1.orders.find? (fun o => o.id == orderID) with
        | none => (some .noRows, db)
        | some o => (none, addAccrualTx db1 o.userId a)
      else (none, db1)
  | _, _ => (none, db1)

/-- Predicate of the batch query's `WHERE status IN ('NEW', 'PROCESSING')`. -/
def pendingOrder (o : Order) : Bool :=
  o.status == .NEW || o.status == .PROCESSING

/-- Comparison of the batch query's `ORDER BY uploaded_at`. -/
def uploadedLE (a b : Order) : Bool :=
  decide (a.uploadedAt ≤ b.uploadedAt)

/-- `orderRepository.SelectBatchForProcessing`: select up to `limit` rows in
status `NEW` or `PROCESSING` ordered by `uploaded_at` ascending, set each
selected row's stored status to `PROCESSING` (touching `updated_at`), and
return the selected rows with status rewritten to `PROCESSING` (the returned
structs keep their scanned `updated_at`, as in the source). -/
def selectBatchForProcessing (db : DB) (limit : Nat) (now : Int) : List Order × DB :=
  let selected := ((db.orders.filter pendingOrder).mergeSort uploadedLE).take limit
  let ids := selected.map Order.id
  let db1 : DB :=
    { db with
      orders := db.orders.map (fun o =>
        if ids.contains o.id then { o with status := .PROCESSING, updatedAt := now } else o) }
  (selected.map (fun o => { o with status := .PROCESSING }), db1)

/-! ## Balance repository (`balanceRepository`) -/

/-- Lookup of the user's balance row (primary key `user_id`). -/
def findBalance (db : DB) (userID : Int) : Option BalanceRow :=
  db.balances.find? (fun b => b.userId == userID)

/-- Fresh `SERIAL` id for an inserted withdrawal row. -/
def nextWithdrawalId (db : DB) : Int :=
  (db.withdrawals.map Withdrawal.id).foldr max 0 + 1

/-- `balanceRepository.Withdraw`: inside one transaction, `SELECT current ...
FOR UPDATE` (a missing row reads as 0); `current < sum` fails with
`ErrInsufficientBalance`; otherwise upsert the balance row
(`current -= sum`, `withdrawn += sum`; the insert arm writes
`(userID, sum, sum)` as in the SQL `VALUES` clause) and append one
withdrawal row. -/
def balancesWithdraw (db : DB) (userID : Int) (order : String) (sum : Money) (now : Int) :
    Option DomainError × DB :=
  let current : Money :=
    match findBalance db userID with
    | some b => b.current
    | none => 0
  if current < sum then (some .insufficientBalance, db)
  else
    let db1 : DB :=
      match findBalance db userID with
      | some _ =>
        { db with
          balances := db.balances.map (fun b =>
            if b.userId == userID then
              { b with current := b.current - sum, withdrawn := b.withdrawn + sum }
            else b) }
      | none =>
        { db with balances := db.balances ++ [{ userId := userID, current := sum, withdrawn := sum }] }
    (none,
      { db1 with
        withdrawals := db1.withdrawals ++
          [{ id := nextWithdrawalId db, userId := userID, orderNumber := order,
             sum := sum, processedAt := now }] })

/-! ## Use cases (`internal/usecase/order.go`, `internal/usecase/balance.go`) -/

/-- `OrderUseCase.Register`: Luhn-validate, then delegate to `orders.Create`. -/
def Register (db : DB) (userID : Int) (number : String) (now : Int) :
    (Option Order × Bool × Option DomainError) × DB :=
  if ValidateOrderNumber number then ordersCreate db userID number now
  else ((none, false, some .invalidOrderNumber), db)

/-- `BalanceUseCase.Withdraw`: Luhn-validate the order number, require
`sum > 0`, then delegate to `balances.Withdraw`. -/
def Withdraw (db : DB) (userID : Int) (order : String) (sum : Money) (now : Int) :
    Option DomainError × DB :=
  if !ValidateOrderNumber order then (some .invalidOrderNumber, db)
  else if sum ≤ 0 then (some .invalidAmount, db)
  else balancesWithdraw db userID order sum now

/-! ## Accrual client (`internal/adapter/accrual`, `HTTPClient.Fetch`) -/

/-- Accrual status strings from the external service (`model.AccrualStatus`
is a string type in Go, so unknown values are representable). -/
abbrev AccrualStatus := String

/-- `model.Accrual`: payload decoded from a 200 response. -/
structure Accrual where
  order : String
  status : AccrualStatus
  accrual : Option Money
deriving DecidableEq, Repr

/-- Error outcomes of `Fetch`: `TooManyRequestsError` with its retry delay
(in seconds), `ErrOrderNotRegistered`, and any other error (transport,
unexpected status or a failing body decode), which callers treat alike. -/
inductive FetchError where
  | tooManyRequests (retryAfter : Int)
  | orderNotRegistered
  | genericFailure
deriving DecidableEq, Repr

/-- Digit-accumulation loop of Go `strconv.Atoi` over the remaining
characters; any non-digit fails. -/
def digitsValAux : List Char → Nat → Option Nat
  | [], acc => some acc
  | c :: rest, acc =>
      if c.isDigit then digitsValAux rest (acc * 10 + (c.toNat - 48)) else none

/-- Go `strconv.Atoi` (= `ParseInt(s, 10, 0)` on a 64-bit platform):
optional sign, one or more decimal digits, nothing else, int64 range. -/
def goAtoi (s : String) : Option Int :=
  let cs := s.data
  let signDigits : Int × List Char :=
    match cs with
    | '-' :: rest => (-1, rest)
    | '+' :: rest => (1, rest)
    | _ => (1, cs)
  match signDigits.2 with
  | [] => none
  | _ =>
    match digitsValAux signDigits.2 0 with
    | none => none
    | some n =>
      let v : Int := signDigits.1 * (n : Int)
      if v < -(2 ^ 63) ∨ 2 ^ 63 - 1 < v then none else some v

/-- `parseRetryAfter`: empty header defaults to 5 seconds; else integer
seconds via `strconv.Atoi`; else an HTTP-date via `http.ParseTime` (the
stdlib date parser is the oracle `httpDate`, giving the date's Unix time)
yielding `time.Until(t)`; else the 5-second default.  Durations are in
seconds. -/
def parseRetryAfter (httpDate : String → Option Int) (now : Int) (header : String) : Int :=
  if header = "" then 5
  else
    match goAtoi header with
    | some seconds => seconds
    | none =>
      match httpDate header with
      | some t => t - now
      | none => 5

/-- The parts of the HTTP response `Fetch` inspects: the status code, the
decoded JSON body of a 200 response (`none` when decoding fails), and the
`Retry-After` header (`""` when absent). -/
structure HTTPResponse where
  statusCode : Nat
  body : Option Accrual
  retryAfterHeader : String
deriving Repr

/-- `HTTPClient.Fetch` outcome mapping: 200 with a decodable body yields the
accrual; 204 yields `ErrOrderNotRegistered`; 429 yields
`TooManyRequestsError` with the parsed `Retry-After`; anything else (and a
200 whose body fails to decode) yields a generic error. -/
def Fetch (httpDate : String → Option Int) (now : Int) (resp : HTTPResponse) :
    Except FetchError Accrual :=
  if resp.statusCode = 200 then
    match resp.body with
    | some a => .ok a
    | none => .error .genericFailure
  else if resp.statusCode = 204 then .error .orderNotRegistered
  else if resp.statusCode = 429 then
    .error (.tooManyRequests (parseRetryAfter httpDate now resp.retryAfterHeader))
  else .error .genericFailure

/-! ## Reconciliation worker (`internal/worker/order_processor.go`) -/

/-- Status mapping of `OrderProcessor.handleOrder`'s `switch`: `REGISTERED`
and `PROCESSING` map to `PROCESSING`, `INVALID` to `INVALID`, `PROCESSED`
to `PROCESSED`, anything else to `PROCESSING`. -/
def mapAccrualStatus (s : AccrualStatus) : OrderStatus :=
  if s = "REGISTERED" ∨ s = "PROCESSING" then .PROCESSING
  else if s = "INVALID" then .INVALID
  else if s = "PROCESSED" then .PROCESSED
  else .PROCESSING

/-- The `UpdateOrderStatus` call `handleOrder` makes for a fetch outcome:
`none` when no call is made (every error path returns before the update),
otherwise the status/accrual arguments passed. -/
def handleOrderCall (fetchResult : Except FetchError Accrual) :
    Option (OrderStatus × Option Money) :=
  match fetchResult with
  | .error _ => none
  | .ok r => some (mapAccrualStatus r.status, r.accrual)

/-- Effect of one `handleOrder` run on the database: apply the
`UpdateOrderStatus` call when one is made, else leave the state alone. -/
def handleOrder (db : DB) (order : Order) (fetchResult : Except FetchError Accrual)
    (now : Int) : DB :=
  match handleOrderCall fetchResult with
  | none => db
  | some (st, acc) => (ordersUpdateStatus db order.id st acc now).2

/-! ## Helper lemmas -/

/-- Crediting a balance never touches the orders table. -/
theorem addAccrualTx_orders (db : DB) (userID : Int) (sum : Money) :
    (addAccrualTx db userID sum).orders = db.orders := by
  unfold addAccrualTx
  split <;> rfl

/-- Crediting a balance never touches the withdrawals table. -/
theorem addAccrualTx_withdrawals (db : DB) (userID : Int) (sum : Money) :
    (addAccrualTx db userID sum).withdrawals = db.withdrawals := by
  unfold addAccrualTx
  split <;> rfl

/-- A member of the status-update image with the updated id carries exactly
the written accrual. -/
theorem mem_update_orders {db : DB} {orderID : Int} {status : OrderStatus}
    {accrual : Option Money} {now : Int} {o : Order}
    (hmem : o ∈ db.orders.map (fun o =>
      if o.id == orderID then setOrderRow o status accrual now else o))
    (hid : o.id = orderID) : o.accrual = accrual := by
  rcases List.mem_map.1 hmem with ⟨o₀, _, rfl⟩
  by_cases h : o₀.id = orderID
  · simp [h, setOrderRow]
  · rw [if_neg (by simpa using h)] at hid
    exact absurd hid h

/-- The state after `UpdateStatus` either has the rewritten orders table, or
(owner lookup failed, transaction rolled back) is the unchanged input state
with no row carrying the target id. -/
theorem updateStatus_orders_cases (db : DB) (orderID : Int) (status : OrderStatus)
    (accrual : Option Money) (now : Int) :
    (ordersUpdateStatus db orderID status accrual now).2.orders =
        db.orders.map (fun o =>
          if o.id == orderID then setOrderRow o status accrual now else o) ∨
    ((ordersUpdateStatus db orderID status accrual now).2 = db ∧
      (db.orders.map (fun o =>
          if o.id == orderID then setOrderRow o status accrual now else o)).find?
        (fun o => o.id == orderID) = none) := by
  unfold ordersUpdateStatus
  cases status <;> cases accrual <;> try exact Or.inl rfl
  rename_i a
  dsimp only
  by_cases hpos : 0 < a
  · rw [if_pos hpos]
    rcases hf : (db.orders.map (fun o =>
        if o.id == orderID then setOrderRow o .PROCESSED (some a) now else o)).find?
        (fun o => o.id == orderID) with _ | o₁
    · rw [hf]
      exact Or.inr ⟨rfl, rfl⟩
    · rw [hf]
      exact Or.inl (addAccrualTx_orders _ _ _)
  · rw [if_neg hpos]
    exact Or.inl rfl

/-- C1: claim refuted by evaluation. The specification requires a second
`UpdateStatus(orderId, PROCESSED, a)` to be a no-op for the owner's balance;
the code credits on every `PROCESSED` update with positive accrual. On an
order (id 1, owner 7, status `PROCESSING`) the first
`UpdateStatus(1, PROCESSED, 5)` leaves the owner's balance at 5, the second
identical call raises it to 10. -/
theorem updateStatus_processed_twice_credits_twice :
    let db0 : DB :=
      { orders := [{ id := 1, userId := 7, number := "79927398713",
                     status := .PROCESSING, accrual := none,
                     uploadedAt := 0, updatedAt := 0 }],
        balances := [], withdrawals := [] }
    let db1 := (ordersUpdateStatus db0 1 .PROCESSED (some 5) 10).2
    let db2 := (ordersUpdateStatus db1 1 .PROCESSED (some 5) 11).2
    findBalance db1 7 = some { userId := 7, current := 5, withdrawn := 0 } ∧
    findBalance db2 7 = some { userId := 7, current := 10, withdrawn := 0 } := by
  norm_num [ordersUpdateStatus, findBalance, addAccrualTx, setOrderRow]

/-- C9: every `UpdateStatus` call overwrites the stored accrual of the order
with the given id with exactly the accrual argument, whatever the status; in
particular a `nil` accrual erases a previously stored value. (When the
balance-credit arm rolls back because the order row is absent, the
conclusion holds vacuously.) -/
theorem updateStatus_overwrites_accrual (db : DB) (orderID : Int)
    (status : OrderStatus) (accrual : Option Money) (now : Int) :
    ∀ o ∈ (ordersUpdateStatus db orderID status accrual now).2.orders,
      o.id = orderID → o.accrual = accrual := by
  intro o hmem hid
  rcases updateStatus_orders_cases db orderID status accrual now with h | ⟨h2, hnone⟩
  · rw [h] at hmem
    exact mem_update_orders hmem hid
  · rw [h2] at hmem
    exfalso
    have hx := List.find?_eq_none.1 hnone _ (List.mem_map_of_mem _ hmem)
    simp [hid, setOrderRow] at hx

/-- C9 witness: on a one-order database, updating order 1 to `PROCESSING`
with a `nil` accrual leaves every row with id 1 carrying accrual `none`,
even though the row previously stored accrual 3. -/
theorem updateStatus_overwrites_accrual_witness :
    ({ id := 1, userId := 7, number := "79927398713", status := .PROCESSING,
       accrual := none, uploadedAt := 0, updatedAt := 9 } : Order) ∈
      (ordersUpdateStatus
        { orders := [{ id := 1, userId := 7, number := "79927398713",
                       status := .PROCESSED, accrual := some 3,
                       uploadedAt := 0, updatedAt := 0 }],
          balances := [], withdrawals := [] } 1 .PROCESSING none 9).2.orders ∧
    ({ id := 1, userId := 7, number := "79927398713", status := .PROCESSING,
       accrual := none, uploadedAt := 0, updatedAt := 9 } : Order).accrual = none := by
  refine ⟨by decide, ?_⟩
  exact updateStatus_overwrites_accrual
    { orders := [{ id := 1, userId := 7, number := "79927398713",
                   status := .PROCESSED, accrual := some 3,
                   uploadedAt := 0, updatedAt := 0 }],
      balances := [], withdrawals := [] } 1 .PROCESSING none 9 _ (by decide) (by decide)

/-- Luhn doubling rule on a single digit value. -/
def luhnDouble (d : Nat) : Nat :=
  if d * 2 > 9 then d * 2 - 9 else d * 2

/-- Specification-level Luhn checksum over digit values listed from the
rightmost digit leftwards: every second digit is doubled, with 9 subtracted
when the double exceeds 9. -/
def luhnChecksum : List Nat → Nat
  | [] => 0
  | [d] => d
  | d :: d2 :: rest => d + luhnDouble d2 + luhnChecksum rest

/-- A non-digit anywhere makes the checksum loop fail. -/
theorem luhnSum_eq_none : ∀ (cs : List Char) (alt : Bool),
    (∃ c ∈ cs, ¬ c.isDigit = true) → luhnSum cs alt = none := by
  intro cs
  induction cs with
  | nil =>
    intro alt h
    rcases h with ⟨c, hc, _⟩
    exact absurd hc (List.not_mem_nil c)
  | cons c rest ih =>
    intro alt h
    unfold luhnSum
    by_cases hc : c.isDigit = true
    · rcases h with ⟨c', hc', hnd⟩
      rcases List.mem_cons.1 hc' with rfl | hmem
      · exact absurd hc hnd
      · rw [ih (!alt) ⟨c', hmem, hnd⟩]
        cases luhnStep c alt <;> rfl
    · rw [show luhnStep c alt = none from by simp [luhnStep, hc]]

/-- On all-digit input the checksum loop computes the specification
checksum of the digit values. -/
theorem luhnSum_digits : ∀ (cs : List Char), (∀ c ∈ cs, c.isDigit = true) →
    luhnSum cs false = some (luhnChecksum (cs.map (fun c => c.toNat - 48)))
  | [], _ => rfl
  | [c], h => by
      have hc := h c (by simp)
      simp [luhnSum, luhnStep, hc, luhnChecksum]
  | c :: c2 :: rest, h => by
      have hc := h c (by simp)
      have hc2 := h c2 (by simp)
      have hrest := luhnSum_digits rest (fun x hx => h x (by simp [hx]))
      simp [luhnSum, luhnStep, hc, hc2, luhnChecksum, luhnDouble, hrest]
      omega

/-- C7: the validator accepts `79927398713`, `2718281828459045` and
`6011111111111117`; rejects the empty string, `123456`, `abcdef` and
`79927398710`; rejects every string that is empty or contains a non-digit;
decides all-digit strings exactly by the mod-10 Luhn checksum; and every
invalid number makes `Register` fail with `InvalidOrderNumber`, leaving the
state untouched (no repository call). -/
theorem validateOrderNumber_spec :
    (ValidateOrderNumber "79927398713" = true ∧
     ValidateOrderNumber "2718281828459045" = true ∧
     ValidateOrderNumber "6011111111111117" = true ∧
     ValidateOrderNumber "" = false ∧
     ValidateOrderNumber "123456" = false ∧
     ValidateOrderNumber "abcdef" = false ∧
     ValidateOrderNumber "79927398710" = false) ∧
    (∀ s : String, (s.data = [] ∨ ∃ c ∈ s.data, ¬ c.isDigit = true) →
      ValidateOrderNumber s = false) ∧
    (∀ s : String, s.data ≠ [] → (∀ c ∈ s.data, c.isDigit = true) →
      (ValidateOrderNumber s = true ↔
        luhnChecksum (s.data.reverse.map (fun c => c.toNat - 48)) % 10 = 0)) ∧
    (∀ (db : DB) (userID : Int) (number : String) (now : Int),
      ValidateOrderNumber number = false →
      Register db userID number now = ((none, false, some .invalidOrderNumber), db)) := by
  refine ⟨by decide, ?_, ?_, ?_⟩
  · intro s h
    unfold ValidateOrderNumber
    rcases h with hd | hnd
    · rw [if_pos hd]
    · by_cases hd : s.data = []
      · rw [if_pos hd]
      · rw [if_neg hd]
        rcases hnd with ⟨c, hc, hnd⟩
        rw [luhnSum_eq_none s.data.reverse false ⟨c, List.mem_reverse.2 hc, hnd⟩]
  · intro s hne hdig
    unfold ValidateOrderNumber
    rw [if_neg hne,
      luhnSum_digits s.data.reverse (fun c hc => hdig c (List.mem_reverse.1 hc))]
    simp
  · intro db userID number now h
    simp [Register, h]

/-- C7 witness: the string `12a4` contains a non-digit and is rejected, and
registering the Luhn-invalid `123456` fails with `InvalidOrderNumber` on an
unchanged empty database. -/
theorem validateOrderNumber_spec_witness :
    ValidateOrderNumber "12a4" = false ∧
    Register { orders := [], balances := [], withdrawals := [] } 1 "123456" 0 =
      ((none, false, some .invalidOrderNumber),
       { orders := [], balances := [], withdrawals := [] }) := by
  refine ⟨?_, ?_⟩
  · exact validateOrderNumber_spec.2.1 "12a4" (Or.inr ⟨'a', by decide, by decide⟩)
  · exact validateOrderNumber_spec.2.2.2
      { orders := [], balances := [], withdrawals := [] } 1 "123456" 0 (by decide)

/-- The checksum contribution of the character `0` is zero for either value
of the alternation flag. -/
theorem luhnStep_zero (alt : Bool) : luhnStep '0' alt = some 0 := by
  cases alt <;> rfl

/-- A run of `0` characters sums to zero for either starting flag. -/
theorem luhnSum_replicate_zero : ∀ (n : Nat) (alt : Bool),
    luhnSum (List.replicate n '0') alt = some 0
  | 0, _ => rfl
  | n + 1, alt => by
      rw [List.replicate_succ]
      unfold luhnSum
      rw [luhnSum_replicate_zero n (!alt), luhnStep_zero]

/-- C10: every non-empty all-`0` string passes Luhn validation (checksum 0,
no minimum length), so order upload delegates to the order repository and
withdrawal (with a positive sum) delegates to the balance repository on
such numbers. -/
theorem zeros_accepted (n : Nat) (hn : 1 ≤ n) (db : DB) (userID : Int)
    (sum : Money) (now : Int) (hsum : 0 < sum) :
    ValidateOrderNumber ⟨List.replicate n '0'⟩ = true ∧
    Register db userID ⟨List.replicate n '0'⟩ now =
      ordersCreate db userID ⟨List.replicate n '0'⟩ now ∧
    Withdraw db userID ⟨List.replicate n '0'⟩ sum now =
      balancesWithdraw db userID ⟨List.replicate n '0'⟩ sum now := by
  have hval : ValidateOrderNumber ⟨List.replicate n '0'⟩ = true := by
    unfold ValidateOrderNumber
    have hne : (String.mk (List.replicate n '0')).data ≠ [] := by
      rcases n with _ | m
      · omega
      · simp [List.replicate_succ]
    rw [if_neg hne]
    show (match luhnSum (List.replicate n '0').reverse false with
      | some s => s % 10 == 0
      | none => false) = true
    rw [List.reverse_replicate, luhnSum_replicate_zero]
    rfl
  refine ⟨hval, ?_, ?_⟩
  · simp [Register, hval]
  · simp [Withdraw, hval, hsum.not_le]

/-- C10 witness: `0000` is accepted, and a withdrawal of 2 points against it
reaches the balance repository. -/
theorem zeros_accepted_witness :
    (1 ≤ 4) ∧ ((0 : Money) < 2) ∧
    ValidateOrderNumber ⟨List.replicate 4 '0'⟩ = true ∧
    Withdraw { orders := [], balances := [{ userId := 1, current := 9, withdrawn := 0 }], withdrawals := [] }
        1 ⟨List.replicate 4 '0'⟩ 2 0 =
      balancesWithdraw { orders := [], balances := [{ userId := 1, current := 9, withdrawn := 0 }], withdrawals := [] }
        1 ⟨List.replicate 4 '0'⟩ 2 0 := by
  refine ⟨by decide, by decide, ?_, ?_⟩
  · exact (zeros_accepted 4 (by decide)
      { orders := [], balances := [], withdrawals := [] } 1 2 0 (by decide)).1
  · exact (zeros_accepted 4 (by decide)
      { orders := [], balances := [{ userId := 1, current := 9, withdrawn := 0 }], withdrawals := [] }
      1 2 0 (by decide)).2.2

/-- C3: `Orders.Create` inserts a fresh `NEW` row and reports
`createdFlag = true` when the number is absent; when the number exists and
the owner is the requester it returns the existing row with
`createdFlag = false` and no error, leaving the table unchanged (no second
row); when the owner differs it returns `AlreadyExists`, also leaving the
state unchanged. -/
theorem ordersCreate_spec (db : DB) (userID : Int) (number : String) (now : Int) :
    (findOrderByNumber db number = none →
      (ordersCreate db userID number now).1 =
        (some { id := nextOrderId db, userId := userID, number := number,
                status := .NEW, accrual := none, uploadedAt := now, updatedAt := now },
         true, none) ∧
      (ordersCreate db userID number now).2.orders =
        db.orders ++ [{ id := nextOrderId db, userId := userID, number := number,
                        status := .NEW, accrual := none, uploadedAt := now, updatedAt := now }]) ∧
    (∀ existing, findOrderByNumber db number = some existing →
      (existing.userId = userID →
        (ordersCreate db userID number now).1 = (some existing, false, none) ∧
        (ordersCreate db userID number now).2 = db) ∧
      (existing.userId ≠ userID →
        (ordersCreate db userID number now).1 = (some existing, false, some .alreadyExists) ∧
        (ordersCreate db userID number now).2 = db)) := by
  constructor
  · intro hnone
    unfold ordersCreate
    rw [hnone]
    exact ⟨rfl, rfl⟩
  · intro existing hsome
    constructor
    · intro howner
      unfold ordersCreate
      rw [hsome]
      simp [howner]
    · intro howner
      unfold ordersCreate
      rw [hsome]
      simp [howner]

/-- C3 witness: on an empty database user 7 registering number
`79927398713` obtains a fresh order with `createdFlag = true`. -/
theorem ordersCreate_spec_witness :
    findOrderByNumber { orders := [], balances := [], withdrawals := [] } "79927398713" = none ∧
    (ordersCreate { orders := [], balances := [], withdrawals := [] } 7 "79927398713" 3).1 =
      (some { id := 1, userId := 7, number := "79927398713", status := .NEW,
              accrual := none, uploadedAt := 3, updatedAt := 3 }, true, none) := by
  refine ⟨by decide, ?_⟩
  exact ((ordersCreate_spec { orders := [], balances := [], withdrawals := [] }
    7 "79927398713" 3).1 (by decide)).1

/-- C5: on a successful fetch the worker calls `UpdateOrderStatus` with
exactly the mapped status (`REGISTERED`/`PROCESSING` to `PROCESSING`,
`INVALID` to `INVALID`, `PROCESSED` to `PROCESSED`, anything else to
`PROCESSING`) and the fetched accrual; on any fetch error (rate limit, not
registered, generic) no update call is made and the state is unchanged. -/
theorem handleOrder_spec :
    (∀ r : Accrual, handleOrderCall (.ok r) = some (mapAccrualStatus r.status, r.accrual)) ∧
    mapAccrualStatus "REGISTERED" = .PROCESSING ∧
    mapAccrualStatus "PROCESSING" = .PROCESSING ∧
    mapAccrualStatus "INVALID" = .INVALID ∧
    mapAccrualStatus "PROCESSED" = .PROCESSED ∧
    (∀ s : AccrualStatus, s ≠ "REGISTERED" → s ≠ "PROCESSING" → s ≠ "INVALID" →
      s ≠ "PROCESSED" → mapAccrualStatus s = .PROCESSING) ∧
    (∀ e : FetchError, handleOrderCall (.error e) = none) ∧
    (∀ (db : DB) (order : Order) (e : FetchError) (now : Int),
      handleOrder db order (.error e) now = db) ∧
    (∀ (db : DB) (order : Order) (r : Accrual) (now : Int),
      handleOrder db order (.ok r) now =
        (ordersUpdateStatus db order.id (mapAccrualStatus r.status) r.accrual now).2) := by
  refine ⟨fun r => rfl, by decide, by decide, by decide, by decide, ?_, fun e => rfl,
    fun db order e now => rfl, fun db order r now => rfl⟩
  intro s h1 h2 h3 h4
  unfold mapAccrualStatus
  rw [if_neg (by simp [h1, h2]), if_neg h3, if_neg h4]

/-- C5 witness: a fetch returning status `REGISTERED` with accrual 2 leads
to an `UpdateStatus(orderId, PROCESSING, 2)` call; an unknown status string
also maps to `PROCESSING`; a rate-limit error leaves the state untouched. -/
theorem handleOrder_spec_witness :
    handleOrderCall (.ok { order := "1", status := "REGISTERED", accrual := some 2 }) =
      some (mapAccrualStatus "REGISTERED", some 2) ∧
    mapAccrualStatus "REGISTERED" = .PROCESSING ∧
    mapAccrualStatus "UNKNOWN" = .PROCESSING ∧
    handleOrder { orders := [], balances := [], withdrawals := [] }
      { id := 1, userId := 7, number := "1", status := .PROCESSING, accrual := none,
        uploadedAt := 0, updatedAt := 0 }
      (.error (.tooManyRequests 5)) 3 = { orders := [], balances := [], withdrawals := [] } := by
  refine ⟨handleOrder_spec.1 { order := "1", status := "REGISTERED", accrual := some 2 },
    handleOrder_spec.2.1, ?_, ?_⟩
  · exact handleOrder_spec.2.2.2.2.2.1 "UNKNOWN" (by decide) (by decide) (by decide) (by decide)
  · exact handleOrder_spec.2.2.2.2.2.2.2.1
      { orders := [], balances := [], withdrawals := [] }
      { id := 1, userId := 7, number := "1", status := .PROCESSING, accrual := none,
        uploadedAt := 0, updatedAt := 0 } (.tooManyRequests 5) 3

/-- C6: `Fetch` maps a 200 response with a decodable body to its accrual
result, 204 to `NotRegistered`, 429 to `RateLimited` with the parsed
`Retry-After`, and any other status to a generic error; `Retry-After`
parsing takes empty to the 5-second default, an integer to that many
seconds, an HTTP-date to the time until it, and anything else to the
5-second default. -/
theorem fetch_outcome_spec (httpDate : String → Option Int) (now : Int) :
    (∀ (resp : HTTPResponse) (a : Accrual), resp.statusCode = 200 → resp.body = some a →
      Fetch httpDate now resp = .ok a) ∧
    (∀ resp : HTTPResponse, resp.statusCode = 204 →
      Fetch httpDate now resp = .error .orderNotRegistered) ∧
    (∀ resp : HTTPResponse, resp.statusCode = 429 →
      Fetch httpDate now resp =
        .error (.tooManyRequests (parseRetryAfter httpDate now resp.retryAfterHeader))) ∧
    (∀ resp : HTTPResponse, resp.statusCode ≠ 200 → resp.statusCode ≠ 204 →
      resp.statusCode ≠ 429 → Fetch httpDate now resp = .error .genericFailure) ∧
    parseRetryAfter httpDate now "" = 5 ∧
    (∀ (h : String) (n : Int), goAtoi h = some n → parseRetryAfter httpDate now h = n) ∧
    (∀ (h : String) (t : Int), h ≠ "" → goAtoi h = none → httpDate h = some t →
      parseRetryAfter httpDate now h = t - now) ∧
    (∀ h : String, h ≠ "" → goAtoi h = none → httpDate h = none →
      parseRetryAfter httpDate now h = 5) := by
  refine ⟨?_, ?_, ?_, ?_, rfl, ?_, ?_, ?_⟩
  · intro resp a h200 hbody
    simp [Fetch, h200, hbody]
  · intro resp h204
    simp [Fetch, h204]
  · intro resp h429
    simp [Fetch, h429]
  · intro resp h1 h2 h3
    unfold Fetch
    rw [if_neg h1, if_neg h2, if_neg h3]
  · intro h n hn
    have hne : h ≠ "" := by
      intro he
      subst he
      rw [show goAtoi "" = none from by decide] at hn
      cases hn
    unfold parseRetryAfter
    rw [if_neg hne, hn]
  · intro h t hne ha hd
    unfold parseRetryAfter
    rw [if_neg hne, ha, hd]
  · intro h hne ha hd
    unfold parseRetryAfter
    rw [if_neg hne, ha, hd]

/-- C6 witness: with a date oracle returning Unix time 42 and `now = 30`, a
200 response yields its body, 204 yields `NotRegistered`, a 429 with
`Retry-After: 7` yields a 7-second rate limit, a 429 with a date header
yields 12 seconds, a 500 yields the generic error, and a malformed header
under an oracle that fails to parse dates falls back to 5 seconds. -/
theorem fetch_outcome_spec_witness :
    Fetch (fun _ => some 42) 30 ⟨200, some ⟨"9278923470", "PROCESSED", some 3⟩, ""⟩ =
      .ok ⟨"9278923470", "PROCESSED", some 3⟩ ∧
    Fetch (fun _ => some 42) 30 ⟨204, none, ""⟩ = .error .orderNotRegistered ∧
    Fetch (fun _ => some 42) 30 ⟨500, none, ""⟩ = .error .genericFailure ∧
    parseRetryAfter (fun _ => some 42) 30 "7" = 7 ∧
    parseRetryAfter (fun _ => some 42) 30 "Mon, 02 Jan 2006" = 12 ∧
    parseRetryAfter (fun _ => none) 30 "garbage" = 5 ∧
    Fetch (fun _ => some 42) 30 ⟨429, none, "7"⟩ = .error (.tooManyRequests 7) := by
  have hatoi7 : goAtoi "7" = some 7 := by decide
  have hdatoi : goAtoi "Mon, 02 Jan 2006" = none := by decide
  have hgatoi : goAtoi "garbage" = none := by decide
  have h7 : parseRetryAfter (fun _ => some 42) 30 "7" = 7 :=
    (fetch_outcome_spec (fun _ => some 42) 30).2.2.2.2.2.1 "7" 7 hatoi7
  refine ⟨?_, ?_, ?_, h7, ?_, ?_, ?_⟩
  · exact (fetch_outcome_spec (fun _ => some 42) 30).1
      ⟨200, some ⟨"9278923470", "PROCESSED", some 3⟩, ""⟩
      ⟨"9278923470", "PROCESSED", some 3⟩ rfl rfl
  · exact (fetch_outcome_spec (fun _ => some 42) 30).2.1 ⟨204, none, ""⟩ rfl
  · exact (fetch_outcome_spec (fun _ => some 42) 30).2.2.2.1 ⟨500, none, ""⟩
      (by decide) (by decide) (by decide)
  · exact (fetch_outcome_spec (fun _ => some 42) 30).2.2.2.2.2.2.1
      "Mon, 02 Jan 2006" 42 (by decide) hdatoi rfl
  · exact (fetch_outcome_spec (fun _ => none) 30).2.2.2.2.2.2.2
      "garbage" (by decide) hgatoi rfl
  · have h429 := (fetch_outcome_spec (fun _ => some 42) 30).2.2.1 ⟨429, none, "7"⟩ rfl
    rw [h429, h7]

/-- A per-user balance update commutes with the per-user lookup when the
update preserves the key. -/
theorem find?_balance_update (l : List BalanceRow) (userID : Int)
    (f : BalanceRow → BalanceRow) (hf : ∀ b, (f b).userId = b.userId) :
    (l.map (fun b => if b.userId == userID then f b else b)).find?
        (fun b => b.userId == userID) =
      (l.find? (fun b => b.userId == userID)).map f := by
  induction l with
  | nil => rfl
  | cons b rest ih =>
    by_cases h : b.userId = userID
    · simp [List.find?_cons, h, hf]
    · simp only [List.map_cons, List.find?_cons]
      rw [if_neg (by simpa using h)]
      simp only [show (b.userId == userID) = false from by simpa using h]
      exact ih

/-- C2: with a Luhn-valid order number and a positive sum, `Withdraw` on the
balance repository fails with `InsufficientBalance` and leaves the whole
state unchanged when the user has no balance row or its `current` is below
the sum; otherwise it succeeds, replacing the user's row by one with
`current - sum` and `withdrawn + sum` and appending exactly one withdrawal
row, with the orders table untouched. -/
theorem withdraw_spec (db : DB) (userID : Int) (order : String) (sum : Money)
    (now : Int) (hluhn : ValidateOrderNumber order = true) (hsum : 0 < sum) :
    (findBalance db userID = none →
      balancesWithdraw db userID order sum now = (some .insufficientBalance, db)) ∧
    (∀ b : BalanceRow, findBalance db userID = some b → b.current < sum →
      balancesWithdraw db userID order sum now = (some .insufficientBalance, db)) ∧
    (∀ b : BalanceRow, findBalance db userID = some b → sum ≤ b.current →
      (balancesWithdraw db userID order sum now).1 = none ∧
      findBalance (balancesWithdraw db userID order sum now).2 userID =
        some { b with current := b.current - sum, withdrawn := b.withdrawn + sum } ∧
      (balancesWithdraw db userID order sum now).2.withdrawals =
        db.withdrawals ++
          [{ id := nextWithdrawalId db, userId := userID, orderNumber := order,
             sum := sum, processedAt := now }] ∧
      (balancesWithdraw db userID order sum now).2.orders = db.orders) := by
  refine ⟨?_, ?_, ?_⟩
  · intro hnone
    unfold balancesWithdraw
    rw [hnone]
    simp [hsum]
  · intro b hb hlt
    unfold balancesWithdraw
    rw [hb]
    simp [hlt]
  · intro b hb hle
    unfold balancesWithdraw
    rw [hb]
    rw [if_neg (not_lt.2 hle)]
    refine ⟨rfl, ?_, rfl, rfl⟩
    show (db.balances.map (fun x =>
        if x.userId == userID then
          { x with current := x.current - sum, withdrawn := x.withdrawn + sum }
        else x)).find? (fun x => x.userId == userID) = _
    rw [find?_balance_update db.balances userID
      (fun x => { x with current := x.current - sum, withdrawn := x.withdrawn + sum })
      (fun x => rfl)]
    unfold findBalance at hb
    rw [hb]
    rfl

/-- C2 witness: user 1 holds 10 points. A withdrawal of 100 against user 2
(no row) fails with `InsufficientBalance` leaving the state unchanged, and a
withdrawal of 4 against user 1 succeeds, leaving 6 current, 4 withdrawn and
one appended withdrawal row. -/
theorem withdraw_spec_witness :
    ValidateOrderNumber "2377225624" = true ∧ ((0 : Money) < 4) ∧
    balancesWithdraw { orders := [], balances := [{ userId := 1, current := 10, withdrawn := 0 }], withdrawals := [] }
        2 "2377225624" 100 3 =
      (some .insufficientBalance,
        { orders := [], balances := [{ userId := 1, current := 10, withdrawn := 0 }], withdrawals := [] }) ∧
    findBalance (balancesWithdraw { orders := [], balances := [{ userId := 1, current := 10, withdrawn := 0 }], withdrawals := [] }
        1 "2377225624" 4 3).2 1 = some { userId := 1, current := 10 - 4, withdrawn := 0 + 4 } := by
  refine ⟨by decide, by decide, ?_, ?_⟩
  · exact (withdraw_spec
      { orders := [], balances := [{ userId := 1, current := 10, withdrawn := 0 }], withdrawals := [] }
      2 "2377225624" 100 3 (by decide) (by decide)).1 (by decide)
  · exact ((withdraw_spec
      { orders := [], balances := [{ userId := 1, current := 10, withdrawn := 0 }], withdrawals := [] }
      1 "2377225624" 4 3 (by decide) (by decide)).2.2
      { userId := 1, current := 10, withdrawn := 0 } (by decide) (by decide)).2.1

/-- C4: the claimed batch contains at most `limit` rows, each returned row
has status `PROCESSING`, the returned rows are in `uploadedAt`-ascending
order, every returned row is a pending (`NEW` or `PROCESSING`) stored row
with status rewritten — so `INVALID`/`PROCESSED` rows are never selected —
and in the resulting state every claimed row is stored as `PROCESSING` with
`updatedAt` touched while unclaimed rows are stored unchanged. -/
theorem selectBatchForProcessing_spec (db : DB) (limit : Nat) (now : Int) :
    (selectBatchForProcessing db limit now).1.length ≤ limit ∧
    (∀ o ∈ (selectBatchForProcessing db limit now).1, o.status = .PROCESSING) ∧
    (selectBatchForProcessing db limit now).1.Pairwise
      (fun a b => a.uploadedAt ≤ b.uploadedAt) ∧
    (∀ o ∈ (selectBatchForProcessing db limit now).1, ∃ o₀ ∈ db.orders,
      (o₀.status = .NEW ∨ o₀.status = .PROCESSING) ∧
      o = { o₀ with status := .PROCESSING }) ∧
    (∀ o₀ ∈ db.orders,
      (o₀.id ∈ (selectBatchForProcessing db limit now).1.map Order.id →
        { o₀ with status := .PROCESSING, updatedAt := now } ∈
          (selectBatchForProcessing db limit now).2.orders) ∧
      (o₀.id ∉ (selectBatchForProcessing db limit now).1.map Order.id →
        o₀ ∈ (selectBatchForProcessing db limit now).2.orders)) := by
  have h1 : (selectBatchForProcessing db limit now).1 =
      (((db.orders.filter pendingOrder).mergeSort uploadedLE).take limit).map
        (fun o => { o with status := .PROCESSING }) := rfl
  have h2 : (selectBatchForProcessing db limit now).2.orders =
      db.orders.map (fun o =>
        if ((((db.orders.filter pendingOrder).mergeSort uploadedLE).take limit).map
            Order.id).contains o.id
        then { o with status := .PROCESSING, updatedAt := now } else o) := rfl
  have hmaps : (selectBatchForProcessing db limit now).1.map Order.id =
      (((db.orders.filter pendingOrder).mergeSort uploadedLE).take limit).map Order.id := by
    rw [h1, List.map_map]
    exact List.map_congr_left (fun a _ => rfl)
  refine ⟨?_, ?_, ?_, ?_, ?_⟩
  · rw [h1, List.length_map, List.length_take]
    exact Nat.min_le_left _ _
  · intro o ho
    rw [h1] at ho
    rcases List.mem_map.1 ho with ⟨o₀, _, rfl⟩
    rfl
  · rw [h1]
    have hs := @List.sorted_mergeSort Order uploadedLE
      (fun a b c hab hbc => by
        simp only [uploadedLE, decide_eq_true_eq] at hab hbc ⊢
        omega)
      (fun a b => by
        rcases Int.le_total a.uploadedAt b.uploadedAt with h | h <;>
          simp [uploadedLE, h])
      (db.orders.filter pendingOrder)
    have ht := List.Pairwise.sublist (List.take_sublist limit _) hs
    exact List.pairwise_map.2 (ht.imp (fun h => of_decide_eq_true h))
  · intro o ho
    rw [h1] at ho
    rcases List.mem_map.1 ho with ⟨o₀, ho₀, rfl⟩
    have hmem : o₀ ∈ (db.orders.filter pendingOrder).mergeSort uploadedLE :=
      List.take_subset _ _ ho₀
    have hmem3 := List.mem_filter.1 (List.mem_mergeSort.1 hmem)
    refine ⟨o₀, hmem3.1, ?_, rfl⟩
    have hp := hmem3.2
    simp only [pendingOrder, Bool.or_eq_true, beq_iff_eq] at hp
    exact hp
  · intro o₀ ho₀
    constructor
    · intro hin
      rw [hmaps] at hin
      rw [h2]
      have hc : ((((db.orders.filter pendingOrder).mergeSort uploadedLE).take limit).map
          Order.id).contains o₀.id = true := List.elem_iff.2 hin
      have hmm := List.mem_map_of_mem (f := fun o =>
        if ((((db.orders.filter pendingOrder).mergeSort uploadedLE).take limit).map
            Order.id).contains o.id
        then { o with status := .PROCESSING, updatedAt := now } else o) ho₀
      dsimp only at hmm
      rw [if_pos hc] at hmm
      exact hmm
    · intro hnin
      rw [hmaps] at hnin
      rw [h2]
      have hc : ((((db.orders.filter pendingOrder).mergeSort uploadedLE).take limit).map
          Order.id).contains o₀.id = false :=
        Bool.eq_false_iff.2 (fun h => hnin (List.elem_iff.1 h))
      have hmm := List.mem_map_of_mem (f := fun o =>
        if ((((db.orders.filter pendingOrder).mergeSort uploadedLE).take limit).map
            Order.id).contains o.id
        then { o with status := .PROCESSING, updatedAt := now } else o) ho₀
      dsimp only at hmm
      rw [if_neg (fun h => Bool.noConfusion (Eq.trans (Eq.symm h) hc))] at hmm
      exact hmm

/-- C4 witness: with one `NEW` order and one `PROCESSED` order stored and
`limit = 1`, the batch has at most one row, and its returned row is the
`NEW` row rewritten to `PROCESSING`. -/
theorem selectBatchForProcessing_spec_witness :
    (selectBatchForProcessing
        { orders := [{ id := 1, userId := 7, number := "79927398713", status := .NEW, accrual := none, uploadedAt := 4, updatedAt := 4 },
                     { id := 2, userId := 7, number := "2377225624", status := .PROCESSED, accrual := some 3, uploadedAt := 1, updatedAt := 2 }],
          balances := [], withdrawals := [] } 1 9).1.length ≤ 1 ∧
    (({ id := 1, userId := 7, number := "79927398713", status := .PROCESSING, accrual := none, uploadedAt := 4, updatedAt := 4 } : Order) ∈
        (selectBatchForProcessing
          { orders := [{ id := 1, userId := 7, number := "79927398713", status := .NEW, accrual := none, uploadedAt := 4, updatedAt := 4 },
                       { id := 2, userId := 7, number := "2377225624", status := .PROCESSED, accrual := some 3, uploadedAt := 1, updatedAt := 2 }],
            balances := [], withdrawals := [] } 1 9).1) ∧
    ({ id := 1, userId := 7, number := "79927398713", status := .PROCESSING, accrual := none, uploadedAt := 4, updatedAt := 4 } : Order).status = .PROCESSING := by
  have hmem : ({ id := 1, userId := 7, number := "79927398713", status := .PROCESSING, accrual := none, uploadedAt := 4, updatedAt := 4 } : Order) ∈
      (selectBatchForProcessing
        { orders := [{ id := 1, userId := 7, number := "79927398713", status := .NEW, accrual := none, uploadedAt := 4, updatedAt := 4 },
                     { id := 2, userId := 7, number := "2377225624", status := .PROCESSED, accrual := some 3, uploadedAt := 1, updatedAt := 2 }],
          balances := [], withdrawals := [] } 1 9).1 := by
    simp [selectBatchForProcessing, pendingOrder, uploadedLE]
  refine ⟨(selectBatchForProcessing_spec _ 1 9).1, hmem, ?_⟩
  exact (selectBatchForProcessing_spec
    { orders := [{ id := 1, userId := 7, number := "79927398713", status := .NEW, accrual := none, uploadedAt := 4, updatedAt := 4 },
                 { id := 2, userId := 7, number := "2377225624", status := .PROCESSED, accrual := some 3, uploadedAt := 1, updatedAt := 2 }],
      balances := [], withdrawals := [] } 1 9).2.1 _ hmem

/-! ## Auth tokens (`internal/pkg/auth/hmac_strategy.go`)

The token is `base64.StdEncoding` applied to the bytes of
`"<userId>:<expiry>:<sig>"`, where `sig` is the base64 of
`HMAC-SHA256(secret, "<userId>:<expiry>")`.  Strings are embedded as their
ASCII byte sequences (`Nat` values below 256).  Base64 is embedded
concretely; the HMAC primitive is Go stdlib crypto outside this repository
and is embedded as an abstract function `sign` (its cryptographic contract
— no collisions on the payloads in play — is a hypothesis where a claim
needs it). -/

/-- Standard base64 alphabet, index to ASCII byte
(`A-Z`, `a-z`, `0-9`, `+`, `/`). -/
def b64byte (i : Nat) : Nat :=
  if i < 26 then 65 + i
  else if i < 52 then 71 + i
  else if i < 62 then i - 4
  else if i = 62 then 43
  else 47

/-- Standard base64 alphabet, ASCII byte to index (`none` for non-alphabet
bytes, including the padding byte 61, `=`). -/
def b64indexByte (b : Nat) : Option Nat :=
  if 65 ≤ b ∧ b ≤ 90 then some (b - 65)
  else if 97 ≤ b ∧ b ≤ 122 then some (b - 71)
  else if 48 ≤ b ∧ b ≤ 57 then some (b + 4)
  else if b = 43 then some 62
  else if b = 47 then some 63
  else none

/-- `base64.StdEncoding.EncodeToString` over bytes (output as ASCII bytes):
3-byte groups map to 4 sextet bytes, the final partial group is padded
with `=` (byte 61). -/
def b64encodeBytes : List Nat → List Nat
  | b0 :: b1 :: b2 :: rest =>
      let n := b0 * 65536 + b1 * 256 + b2
      b64byte (n / 262144) :: b64byte (n / 4096 % 64) :: b64byte (n / 64 % 64) ::
        b64byte (n % 64) :: b64encodeBytes rest
  | [b0, b1] =>
      let n := b0 * 1024 + b1 * 4
      [b64byte (n / 4096), b64byte (n / 64 % 64), b64byte (n % 64), 61]
  | [b0] =>
      let n := b0 * 16
      [b64byte (n / 64), b64byte (n % 64), 61, 61]
  | [] => []

/-- `base64.StdEncoding.DecodeString` over ASCII bytes: 4-byte groups decode
to 3 bytes, with `=`-padding allowed only in the final group; any
non-alphabet byte or ragged length fails. -/
def b64decodeBytes : List Nat → Option (List Nat)
  | [] => some []
  | c0 :: c1 :: c2 :: c3 :: rest =>
      match b64indexByte c0, b64indexByte c1 with
      | some x0, some x1 =>
        if c2 = 61 then
          if c3 = 61 ∧ rest = [] then some [(x0 * 64 + x1) / 16] else none
        else
          match b64indexByte c2 with
          | some x2 =>
            if c3 = 61 then
              if rest = [] then
                some [(x0 * 4096 + x1 * 64 + x2) / 1024,
                      (x0 * 4096 + x1 * 64 + x2) / 4 % 256]
              else none
            else
              match b64indexByte c3 with
              | some x3 =>
                match b64decodeBytes rest with
                | some bs =>
                  some ((x0 * 262144 + x1 * 4096 + x2 * 64 + x3) / 65536 ::
                        (x0 * 262144 + x1 * 4096 + x2 * 64 + x3) / 256 % 256 ::
                        (x0 * 262144 + x1 * 4096 + x2 * 64 + x3) % 256 :: bs)
                | none => none
              | none => none
          | none => none
      | _, _ => none
  | _ => none

/-- The alphabet map is inverted by the index map below 64. -/
theorem b64indexByte_b64byte : ∀ i < 64, b64indexByte (b64byte i) = some i := by
  decide

/-- Alphabet bytes are never the padding byte. -/
theorem b64byte_ne_pad : ∀ i < 64, b64byte i ≠ 61 := by
  decide

/-- Unfolding: encoding of a final 1-byte group. -/
theorem b64encodeBytes_one (b0 : Nat) :
    b64encodeBytes [b0] = [b64byte (b0 * 16 / 64), b64byte (b0 * 16 % 64), 61, 61] := rfl

/-- Unfolding: encoding of a final 2-byte group. -/
theorem b64encodeBytes_two (b0 b1 : Nat) :
    b64encodeBytes [b0, b1] =
      [b64byte ((b0 * 1024 + b1 * 4) / 4096), b64byte ((b0 * 1024 + b1 * 4) / 64 % 64),
       b64byte ((b0 * 1024 + b1 * 4) % 64), 61] := rfl

/-- Unfolding: encoding of a full 3-byte group. -/
theorem b64encodeBytes_three (b0 b1 b2 : Nat) (rest : List Nat) :
    b64encodeBytes (b0 :: b1 :: b2 :: rest) =
      b64byte ((b0 * 65536 + b1 * 256 + b2) / 262144) ::
      b64byte ((b0 * 65536 + b1 * 256 + b2) / 4096 % 64) ::
      b64byte ((b0 * 65536 + b1 * 256 + b2) / 64 % 64) ::
      b64byte ((b0 * 65536 + b1 * 256 + b2) % 64) :: b64encodeBytes rest := rfl

/-- Decoding a final group padded with two `=` bytes. -/
theorem b64decodeBytes_pad2 (c0 c1 : Nat) (x0 x1 : Nat)
    (h0 : b64indexByte c0 = some x0) (h1 : b64indexByte c1 = some x1) :
    b64decodeBytes [c0, c1, 61, 61] = some [(x0 * 64 + x1) / 16] := by
  unfold b64decodeBytes
  rw [h0, h1]
  simp

/-- Decoding a final group padded with one `=` byte. -/
theorem b64decodeBytes_pad1 (c0 c1 c2 : Nat) (x0 x1 x2 : Nat)
    (h0 : b64indexByte c0 = some x0) (h1 : b64indexByte c1 = some x1)
    (h2 : b64indexByte c2 = some x2) (hne2 : c2 ≠ 61) :
    b64decodeBytes [c0, c1, c2, 61] =
      some [(x0 * 4096 + x1 * 64 + x2) / 1024, (x0 * 4096 + x1 * 64 + x2) / 4 % 256] := by
  unfold b64decodeBytes
  rw [h0, h1]
  dsimp only
  rw [if_neg hne2, h2]
  simp

/-- Decoding an unpadded 4-byte group followed by more input. -/
theorem b64decodeBytes_full (c0 c1 c2 c3 : Nat) (rest : List Nat)
    (x0 x1 x2 x3 : Nat) (bs : List Nat)
    (h0 : b64indexByte c0 = some x0) (h1 : b64indexByte c1 = some x1)
    (h2 : b64indexByte c2 = some x2) (h3 : b64indexByte c3 = some x3)
    (hne2 : c2 ≠ 61) (hne3 : c3 ≠ 61)
    (hrest : b64decodeBytes rest = some bs) :
    b64decodeBytes (c0 :: c1 :: c2 :: c3 :: rest) =
      some ((x0 * 262144 + x1 * 4096 + x2 * 64 + x3) / 65536 ::
            (x0 * 262144 + x1 * 4096 + x2 * 64 + x3) / 256 % 256 ::
            (x0 * 262144 + x1 * 4096 + x2 * 64 + x3) % 256 :: bs) := by
  unfold b64decodeBytes
  rw [h0, h1]
  dsimp only
  rw [if_neg hne2, h2]
  dsimp only
  rw [if_neg hne3, h3]
  dsimp only
  rw [hrest]

/-- Decoding inverts encoding on byte lists. -/
theorem b64_roundtrip : ∀ (bs : List Nat), (∀ b ∈ bs, b < 256) →
    b64decodeBytes (b64encodeBytes bs) = some bs
  | [], _ => rfl
  | [b0], h => by
      have hb0 : b0 < 256 := h b0 (by simp)
      rw [b64encodeBytes_one,
        b64decodeBytes_pad2 _ _ _ _ (b64indexByte_b64byte _ (by omega))
          (b64indexByte_b64byte _ (by omega))]
      simp only [Option.some.injEq, List.cons.injEq, and_true]
      omega
  | [b0, b1], h => by
      have hb0 : b0 < 256 := h b0 (by simp)
      have hb1 : b1 < 256 := h b1 (by simp)
      rw [b64encodeBytes_two,
        b64decodeBytes_pad1 _ _ _ _ _ _ (b64indexByte_b64byte _ (by omega))
          (b64indexByte_b64byte _ (by omega)) (b64indexByte_b64byte _ (by omega))
          (b64byte_ne_pad _ (by omega))]
      simp only [Option.some.injEq, List.cons.injEq, and_true]
      omega
  | b0 :: b1 :: b2 :: rest, h => by
      have hb0 : b0 < 256 := h b0 (by simp)
      have hb1 : b1 < 256 := h b1 (by simp)
      have hb2 : b2 < 256 := h b2 (by simp)
      have hrest := b64_roundtrip rest (fun b hb => h b (by simp [hb]))
      rw [b64encodeBytes_three,
        b64decodeBytes_full _ _ _ _ _ _ _ _ _ _ (b64indexByte_b64byte _ (by omega))
          (b64indexByte_b64byte _ (by omega)) (b64indexByte_b64byte _ (by omega))
          (b64indexByte_b64byte _ (by omega)) (b64byte_ne_pad _ (by omega))
          (b64byte_ne_pad _ (by omega)) hrest]
      simp only [Option.some.injEq, List.cons.injEq, and_true]
      refine ⟨?_, ?_, ?_⟩ <;> omega

/-- Little-endian decimal digits with structural fuel; agrees with
`Nat.digits 10` once the fuel covers the number. -/
def natDigitsAux : Nat → Nat → List Nat
  | 0, _ => []
  | _ + 1, 0 => []
  | fuel + 1, n + 1 => (n + 1) % 10 :: natDigitsAux fuel ((n + 1) / 10)

/-- Little-endian decimal digits of a natural number. -/
def natDigits (n : Nat) : List Nat := natDigitsAux n n

/-- The fueled digit function computes `Nat.digits 10`. -/
theorem natDigitsAux_eq : ∀ (fuel n : Nat), n ≤ fuel →
    natDigitsAux fuel n = Nat.digits 10 n := by
  intro fuel
  induction fuel with
  | zero =>
    intro n hn
    interval_cases n
    simp [natDigitsAux]
  | succ fuel ih =>
    intro n hn
    match n with
    | 0 => simp [natDigitsAux]
    | m + 1 =>
      show (m + 1) % 10 :: natDigitsAux fuel ((m + 1) / 10) = _
      rw [ih ((m + 1) / 10) (by omega),
        Nat.digits_def' (b := 10) (by norm_num) (Nat.succ_pos m)]

/-- `natDigits` computes `Nat.digits 10`. -/
theorem natDigits_eq (n : Nat) : natDigits n = Nat.digits 10 n :=
  natDigitsAux_eq n n le_rfl

/-- ASCII decimal bytes of an integer, as produced by Go
`fmt.Sprintf("%d", n)` (minus sign byte 45, digit bytes 48-57). -/
def intDecBytes (n : Int) : List Nat :=
  if n < 0 then 45 :: (natDigits n.natAbs).reverse.map (fun d => d + 48)
  else if n = 0 then [48]
  else (natDigits n.natAbs).reverse.map (fun d => d + 48)

/-- Sign handling of Go `strconv.ParseInt`: a leading `-` (byte 45) or `+`
(byte 43) is split off. -/
def signSplit (bs : List Nat) : Int × List Nat :=
  match bs with
  | b :: rest => if b = 45 then (-1, rest) else if b = 43 then (1, rest) else (1, bs)
  | [] => (1, [])

/-- Digit-accumulation loop of `strconv.ParseInt` over ASCII bytes; any
non-digit byte fails. -/
def decValAux : List Nat → Nat → Option Nat
  | [], acc => some acc
  | b :: rest, acc =>
      if 48 ≤ b ∧ b ≤ 57 then decValAux rest (acc * 10 + (b - 48)) else none

/-- Go `strconv.ParseInt(s, 10, 64)` over ASCII bytes: optional sign, one or
more decimal digits, nothing else, int64 range check. -/
def parseInt64Bytes (bs : List Nat) : Option Int :=
  let sd := signSplit bs
  match sd.2 with
  | [] => none
  | _ =>
    match decValAux sd.2 0 with
    | none => none
    | some n =>
      if (sd.1 * (n : Int)) < -(2 ^ 63) ∨ 2 ^ 63 - 1 < (sd.1 * (n : Int)) then none
      else some (sd.1 * (n : Int))

/-- Value of the digit loop on mapped decimal digits (most significant
first). -/
theorem decValAux_digits : ∀ (ds : List Nat) (acc : Nat), (∀ d ∈ ds, d < 10) →
    decValAux (ds.map (fun d => d + 48)) acc =
      some (acc * 10 ^ ds.length + Nat.ofDigits 10 ds.reverse) := by
  intro ds
  induction ds with
  | nil =>
    intro acc _
    simp [decValAux, Nat.ofDigits_nil]
  | cons d rest ih =>
    intro acc h
    have hd : d < 10 := h d (by simp)
    show decValAux ((d + 48) :: rest.map (fun d => d + 48)) acc = _
    unfold decValAux
    rw [if_pos (by omega)]
    rw [ih (acc * 10 + (d + 48 - 48)) (fun x hx => h x (by simp [hx]))]
    congr 1
    rw [List.reverse_cons, Nat.ofDigits_append]
    simp [Nat.ofDigits_singleton]
    ring

/-- Every byte of a formatted integer is below 256 and is not the colon
byte 58. -/
theorem intDecBytes_bytes (n : Int) : ∀ b ∈ intDecBytes n, b < 256 ∧ b ≠ 58 := by
  intro b hb
  unfold intDecBytes at hb
  have hdig : ∀ x ∈ (natDigits n.natAbs).reverse.map (fun d => d + 48),
      x < 256 ∧ x ≠ 58 := by
    intro x hx
    rcases List.mem_map.1 hx with ⟨d, hd, rfl⟩
    have : d < 10 := by
      have := Nat.digits_lt_base (b := 10) (m := n.natAbs) (by norm_num) (by
        rw [← natDigits_eq]
        exact List.mem_reverse.1 hd)
      omega
    omega
  by_cases h1 : n < 0
  · rw [if_pos h1] at hb
    rcases List.mem_cons.1 hb with rfl | hb
    · omega
    · exact hdig b hb
  · rw [if_neg h1] at hb
    by_cases h2 : n = 0
    · rw [if_pos h2] at hb
      rcases List.mem_cons.1 hb with rfl | hb
      · omega
      · exact absurd hb (List.not_mem_nil b)
    · rw [if_neg h2] at hb
      exact hdig b hb

/-- Parsing inverts formatting on the int64 range. -/
theorem parseInt64_intDecBytes (n : Int) (h1 : -(2 ^ 63) ≤ n) (h2 : n ≤ 2 ^ 63 - 1) :
    parseInt64Bytes (intDecBytes n) = some n := by
  have hdigits : ∀ m : Nat, m ≠ 0 →
      decValAux ((natDigits m).reverse.map (fun d => d + 48)) 0 = some m := by
    intro m hm
    rw [decValAux_digits _ 0 (fun d hd => by
      have := Nat.digits_lt_base (b := 10) (m := m) (by norm_num) (by
        rw [← natDigits_eq]
        exact List.mem_reverse.1 hd)
      omega)]
    rw [List.reverse_reverse, natDigits_eq, Nat.ofDigits_digits]
    simp
  have hcons : ∀ m : Nat, m ≠ 0 → ∃ hd tl,
      (natDigits m).reverse.map (fun d => d + 48) = (hd + 48) :: tl ∧ hd < 10 := by
    intro m hm
    have hne : (natDigits m).reverse ≠ [] := by
      rw [natDigits_eq]
      simp [Nat.digits_ne_nil_iff_ne_zero, hm]
    rcases hx : (natDigits m).reverse with _ | ⟨hd, tl⟩
    · exact absurd hx hne
    · refine ⟨hd, tl.map (fun d => d + 48), rfl, ?_⟩
      have := Nat.digits_lt_base (b := 10) (by norm_num) (m := m) (d := hd) (by
        rw [← natDigits_eq]
        rw [← List.mem_reverse, hx]
        simp)
      omega
  by_cases hneg : n < 0
  · have hm : n.natAbs ≠ 0 := by omega
    rcases hcons n.natAbs hm with ⟨hd, tl, hx, hhd⟩
    unfold intDecBytes
    rw [if_pos hneg]
    unfold parseInt64Bytes signSplit
    dsimp only
    rw [if_pos rfl]
    dsimp only
    rw [hx]
    dsimp only
    rw [← hx, hdigits n.natAbs hm]
    dsimp only
    rw [if_neg (by
      push_neg
      constructor <;> omega)]
    congr 1
    omega
  · by_cases hzero : n = 0
    · subst hzero
      rfl
    · have hm : n.natAbs ≠ 0 := by omega
      rcases hcons n.natAbs hm with ⟨hd, tl, hx, hhd⟩
      unfold intDecBytes
      rw [if_neg hneg, if_neg hzero]
      unfold parseInt64Bytes signSplit
      dsimp only
      rw [hx]
      dsimp only
      rw [if_neg (by omega), if_neg (by omega)]
      dsimp only
      rw [← hx, hdigits n.natAbs hm]
      dsimp only
      rw [if_neg (by
        push_neg
        constructor <;> omega)]
      congr 1
      omega

/-- Go `strings.Split(s, ":")` over bytes (the separator is byte 58). -/
def splitColon : List Nat → List (List Nat)
  | [] => [[]]
  | b :: rest =>
      if b = 58 then [] :: splitColon rest
      else
        match splitColon rest with
        | s :: ss => (b :: s) :: ss
        | [] => [[b]]

/-- Inverse of `splitColon`: joins the parts back with colon bytes. -/
def joinColon : List (List Nat) → List Nat
  | [] => []
  | [s] => s
  | s :: ss => s ++ 58 :: joinColon ss

/-- Unfolding lemma for `splitColon` on a cons cell. -/
theorem splitColon_cons (b : Nat) (rest : List Nat) :
    splitColon (b :: rest) =
      if b = 58 then [] :: splitColon rest
      else
        match splitColon rest with
        | s :: ss => (b :: s) :: ss
        | [] => [[b]] := rfl

/-- Splitting always yields at least one part. -/
theorem splitColon_ne_nil : ∀ l : List Nat, splitColon l ≠ [] := by
  intro l
  induction l with
  | nil => simp [splitColon]
  | cons b rest ih =>
    rw [splitColon_cons]
    by_cases hb : b = 58
    · simp [hb]
    · rw [if_neg hb]
      rcases hr : splitColon rest with _ | ⟨s, ss⟩
      · exact absurd hr ih
      · simp

/-- Splitting after a colon-free prefix peels that prefix off. -/
theorem splitColon_append : ∀ (a : List Nat), 58 ∉ a → ∀ rest : List Nat,
    splitColon (a ++ 58 :: rest) = a :: splitColon rest := by
  intro a
  induction a with
  | nil =>
    intro _ rest
    rw [List.nil_append, splitColon_cons, if_pos rfl]
  | cons x xs ih =>
    intro hx rest
    have hxne : x ≠ 58 := by
      intro h
      exact hx (by simp [h])
    rw [List.cons_append, splitColon_cons, if_neg hxne,
      ih (fun h => hx (by simp [h])) rest]

/-- Splitting a colon-free list yields that single part. -/
theorem splitColon_nocolon : ∀ (a : List Nat), 58 ∉ a → splitColon a = [a] := by
  intro a
  induction a with
  | nil => intro _; rfl
  | cons x xs ih =>
    intro hx
    have hxne : x ≠ 58 := by
      intro h
      exact hx (by simp [h])
    rw [splitColon_cons, if_neg hxne, ih (fun h => hx (by simp [h]))]

/-- Joining undoes splitting. -/
theorem joinColon_splitColon : ∀ l : List Nat, joinColon (splitColon l) = l := by
  intro l
  induction l with
  | nil => rfl
  | cons b rest ih =>
    rw [splitColon_cons]
    by_cases hb : b = 58
    · subst hb
      rw [if_pos rfl]
      rcases hr : splitColon rest with _ | ⟨s, ss⟩
      · exact absurd hr (splitColon_ne_nil rest)
      · rw [hr] at ih
        show joinColon ([] :: s :: ss) = 58 :: rest
        unfold joinColon
        rw [show joinColon (s :: ss) = rest from ih]
        rfl
    · rw [if_neg hb]
      rcases hr : splitColon rest with _ | ⟨s, ss⟩
      · exact absurd hr (splitColon_ne_nil rest)
      · rw [hr] at ih
        rcases ss with _ | ⟨s2, ss2⟩
        · show joinColon [b :: s] = b :: rest
          unfold joinColon at ih ⊢
          rw [show s = rest from ih]
        · show joinColon ((b :: s) :: s2 :: ss2) = b :: rest
          unfold joinColon at ih ⊢
          rw [← ih]
          rfl

/-- Every part produced by splitting is colon-free. -/
theorem splitColon_parts : ∀ (l : List Nat) (p : List Nat),
    p ∈ splitColon l → 58 ∉ p := by
  intro l
  induction l with
  | nil =>
    intro p hp
    simp [splitColon] at hp
    subst hp
    simp
  | cons b rest ih =>
    intro p hp
    rw [splitColon_cons] at hp
    by_cases hb : b = 58
    · rw [if_pos hb] at hp
      rcases List.mem_cons.1 hp with rfl | hmem
      · simp
      · exact ih p hmem
    · rw [if_neg hb] at hp
      rcases hr : splitColon rest with _ | ⟨s, ss⟩
      · exact absurd hr (splitColon_ne_nil rest)
      · rw [hr] at hp
        rcases List.mem_cons.1 hp with rfl | hmem
        · intro hcontra
          rcases List.mem_cons.1 hcontra with h58 | hmem2
          · exact hb h58.symm
          · exact ih s (by rw [hr]; simp) hmem2
        · exact ih p (by rw [hr]; simp [hmem])

/-- Model of `HMACStrategy`: `sign` abstracts
`base64(HMAC-SHA256(secret, ·))` over payload bytes (Go stdlib crypto,
outside this repository); `ttl` is the token lifetime in seconds (positive
after the constructor's defaulting). -/
structure HMACStrategy where
  sign : List Nat → List Nat
  ttl : Int

/-- Payload bytes `"<userId>:<expiry>"` of a token issued at `now`
(`time.Now().Unix()`), with expiry `now + ttl`. -/
def tokenPayload (s : HMACStrategy) (userID : Int) (now : Int) : List Nat :=
  intDecBytes userID ++ 58 :: intDecBytes (now + s.ttl)

/-- Raw (pre-base64) token bytes `"<payload>:<sig>"`. -/
def tokenRaw (s : HMACStrategy) (userID : Int) (now : Int) : List Nat :=
  tokenPayload s userID now ++ 58 :: s.sign (tokenPayload s userID now)

/-- `HMACStrategy.IssueToken`: sign the payload and base64-encode
`"<payload>:<sig>"`. -/
def IssueToken (s : HMACStrategy) (userID : Int) (now : Int) : List Nat :=
  b64encodeBytes (tokenRaw s userID now)

/-- `HMACStrategy.ParseToken`: base64-decode; split on `:`; require exactly
three parts; recompute and compare the signature (`hmac.Equal`); parse the
two integers; reject a past expiry; return the user id.  Every failure path
is `ErrInvalidToken`, modelled as `none`. -/
def ParseToken (s : HMACStrategy) (now : Int) (token : List Nat) : Option Int :=
  match b64decodeBytes token with
  | none => none
  | some raw =>
    match splitColon raw with
    | [p0, p1, sg] =>
      if s.sign (p0 ++ 58 :: p1) = sg then
        match parseInt64Bytes p0, parseInt64Bytes p1 with
        | some userID, some expires =>
            if expires < now then none else some userID
        | _, _ => none
      else none
    | _ => none

/-- Raw token bytes are valid bytes whenever the signature's are. -/
theorem tokenRaw_bytes (s : HMACStrategy) (userID now : Int)
    (hsig : ∀ b ∈ s.sign (tokenPayload s userID now), b < 256) :
    ∀ b ∈ tokenRaw s userID now, b < 256 := by
  intro b hb
  unfold tokenRaw tokenPayload at hb
  rcases List.mem_append.1 hb with hb | hb
  · rcases List.mem_append.1 hb with hb | hb
    · exact (intDecBytes_bytes userID b hb).1
    · rcases List.mem_cons.1 hb with rfl | hb
      · omega
      · exact (intDecBytes_bytes _ b hb).1
  · rcases List.mem_cons.1 hb with rfl | hb
    · omega
    · exact hsig b hb

/-- Splitting a two-colon byte list with colon-free segments yields the
three segments. -/
theorem splitColon_ue_g (u e g : List Nat) (hu : 58 ∉ u) (he : 58 ∉ e)
    (hg : 58 ∉ g) : splitColon ((u ++ 58 :: e) ++ 58 :: g) = [u, e, g] := by
  rw [List.append_assoc, List.cons_append, splitColon_append u hu,
    splitColon_append e he, splitColon_nocolon g hg]

/-- Splitting the raw token recovers user id, expiry and signature. -/
theorem splitColon_tokenRaw (s : HMACStrategy) (userID now : Int)
    (hsig : 58 ∉ s.sign (tokenPayload s userID now)) :
    splitColon (tokenRaw s userID now) =
      [intDecBytes userID, intDecBytes (now + s.ttl),
       s.sign (tokenPayload s userID now)] :=
  splitColon_ue_g (intDecBytes userID) (intDecBytes (now + s.ttl))
    (s.sign (tokenPayload s userID now))
    (fun h => ((intDecBytes_bytes userID 58 h).2 rfl))
    (fun h => ((intDecBytes_bytes _ 58 h).2 rfl)) hsig


/-- Splitting before a final colon-free segment appends that segment as one
more part. -/
theorem splitColon_append_last (c : List Nat) (hc : 58 ∉ c) :
    ∀ a : List Nat, splitColon (a ++ 58 :: c) = splitColon a ++ [c] := by
  intro a
  induction a with
  | nil =>
    rw [List.nil_append, splitColon_cons, if_pos rfl, splitColon_nocolon c hc]
    rfl
  | cons x xs ih =>
    rw [List.cons_append, splitColon_cons x (xs ++ 58 :: c), splitColon_cons x xs, ih]
    by_cases hx : x = 58
    · rw [if_pos hx, if_pos hx]
      rfl
    · rw [if_neg hx, if_neg hx]
      rcases hr : splitColon xs with _ | ⟨q, qs⟩
      · exact absurd hr (splitColon_ne_nil xs)
      · rfl

/-- Overwriting position `i` with a byte different from the one stored
there changes the list. -/
theorem set_ne_of_ne_get {l : List Nat} {i : Nat} (hi : i < l.length) {b : Nat}
    (h : b ≠ l.get ⟨i, hi⟩) : l.set i b ≠ l := by
  intro he
  apply h
  have h1 : (l.set i b)[i]? = some b := List.getElem?_set_self hi
  rw [he, List.getElem?_eq_getElem hi] at h1
  rw [List.get_eq_getElem]
  exact (Option.some.injEq _ _  ▸ h1).symm

/-- Payload bytes of the raw token are valid bytes. -/
theorem tokenPayload_bytes (s : HMACStrategy) (userID now : Int) :
    ∀ b ∈ tokenPayload s userID now, b < 256 := by
  intro b hb
  unfold tokenPayload at hb
  rcases List.mem_append.1 hb with hb | hb
  · exact (intDecBytes_bytes userID b hb).1
  · rcases List.mem_cons.1 hb with rfl | hb
    · omega
    · exact (intDecBytes_bytes _ b hb).1

/-- Replacing the issued payload by any other byte list makes parsing fail,
provided the signing function has no collision at the issued payload. -/
theorem parse_payload_ne (s : HMACStrategy) (userID now now2 : Int)
    (hsig : ∀ b ∈ s.sign (tokenPayload s userID now), b < 256 ∧ b ≠ 58)
    (hcoll : ∀ p, s.sign p = s.sign (tokenPayload s userID now) →
      p = tokenPayload s userID now)
    (p2 : List Nat) (hb2 : ∀ x ∈ p2, x < 256)
    (hne : p2 ≠ tokenPayload s userID now) :
    ParseToken s now2
      (b64encodeBytes (p2 ++ 58 :: s.sign (tokenPayload s userID now))) = none := by
  have hbytes : ∀ x ∈ p2 ++ 58 :: s.sign (tokenPayload s userID now), x < 256 := by
    intro x hx
    rcases List.mem_append.1 hx with hx | hx
    · exact hb2 x hx
    · rcases List.mem_cons.1 hx with rfl | hx
      · omega
      · exact (hsig x hx).1
  unfold ParseToken
  rw [b64_roundtrip _ hbytes]
  dsimp only
  rw [splitColon_append_last _ (fun h => (hsig 58 h).2 rfl) p2]
  rcases hsp : splitColon p2 with _ | ⟨q0, _ | ⟨q1, _ | ⟨q2, qs⟩⟩⟩
  · exact absurd hsp (splitColon_ne_nil p2)
  · rfl
  · simp only [List.cons_append, List.nil_append]
    by_cases hsg : s.sign (q0 ++ 58 :: q1) = s.sign (tokenPayload s userID now)
    · exfalso
      have hq : q0 ++ 58 :: q1 = tokenPayload s userID now := hcoll _ hsg
      have hj := joinColon_splitColon p2
      rw [hsp] at hj
      have hp2 : p2 = q0 ++ 58 :: q1 := by
        rw [← hj]
        rfl
      exact hne (hp2.trans hq)
    · rw [if_neg hsg]
  · rcases hqq : qs ++ [s.sign (tokenPayload s userID now)] with _ | ⟨y, ys⟩
    · exact absurd hqq (List.append_ne_nil_of_right_ne_nil qs (by simp))
    · simp only [List.cons_append, hqq]

/-- Replacing the issued signature by any other byte list makes parsing
fail. -/
theorem parse_sig_ne (s : HMACStrategy) (userID now now2 : Int)
    (g2 : List Nat) (hb2 : ∀ x ∈ g2, x < 256)
    (hne : g2 ≠ s.sign (tokenPayload s userID now)) :
    ParseToken s now2
      (b64encodeBytes (tokenPayload s userID now ++ 58 :: g2)) = none := by
  have hbytes : ∀ x ∈ tokenPayload s userID now ++ 58 :: g2, x < 256 := by
    intro x hx
    rcases List.mem_append.1 hx with hx | hx
    · exact tokenPayload_bytes s userID now x hx
    · rcases List.mem_cons.1 hx with rfl | hx
      · omega
      · exact hb2 x hx
  unfold ParseToken
  rw [b64_roundtrip _ hbytes]
  dsimp only
  have hstep : splitColon (tokenPayload s userID now ++ 58 :: g2) =
      intDecBytes userID :: intDecBytes (now + s.ttl) :: splitColon g2 := by
    show splitColon ((intDecBytes userID ++ 58 :: intDecBytes (now + s.ttl)) ++ 58 :: g2) = _
    rw [List.append_assoc, List.cons_append,
      splitColon_append (intDecBytes userID)
        (fun h => ((intDecBytes_bytes userID 58 h).2 rfl)),
      splitColon_append (intDecBytes (now + s.ttl))
        (fun h => ((intDecBytes_bytes _ 58 h).2 rfl))]
  rw [hstep]
  rcases hsp : splitColon g2 with _ | ⟨h1, _ | ⟨h2, hs⟩⟩
  · exact absurd hsp (splitColon_ne_nil g2)
  · dsimp only
    have hg : h1 = g2 := by
      have hj := joinColon_splitColon g2
      rw [hsp] at hj
      exact hj
    rw [if_neg (fun hcontra => hne (by
      rw [← hg]
      exact hcontra.symm))]
  · rfl

/-- C8: a token issued for `userID` at time `now` parses back to `userID`
at any time within its lifetime; once the embedded expiry is past, parsing
fails with `InvalidToken`; and altering any byte of the token's payload or
of its signature makes parsing fail — under the ideal-MAC reading of the
stdlib HMAC primitive: its base64 output is colon-free, and it has no
collision at the issued payload. -/
theorem token_roundtrip_spec (s : HMACStrategy) (userID now now2 : Int)
    (hsig : ∀ b ∈ s.sign (tokenPayload s userID now), b < 256 ∧ b ≠ 58)
    (hcoll : ∀ p, s.sign p = s.sign (tokenPayload s userID now) →
      p = tokenPayload s userID now)
    (huid1 : -(2 ^ 63) ≤ userID) (huid2 : userID ≤ 2 ^ 63 - 1)
    (hexp1 : -(2 ^ 63) ≤ now + s.ttl) (hexp2 : now + s.ttl ≤ 2 ^ 63 - 1) :
    (now2 ≤ now + s.ttl →
      ParseToken s now2 (IssueToken s userID now) = some userID) ∧
    (now + s.ttl < now2 →
      ParseToken s now2 (IssueToken s userID now) = none) ∧
    (∀ (i : Nat) (hi : i < (tokenPayload s userID now).length) (b : Nat), b < 256 →
      b ≠ (tokenPayload s userID now).get ⟨i, hi⟩ →
      ParseToken s now2 (b64encodeBytes ((tokenPayload s userID now).set i b ++
        58 :: s.sign (tokenPayload s userID now))) = none) ∧
    (∀ (i : Nat) (hi : i < (s.sign (tokenPayload s userID now)).length) (b : Nat),
      b < 256 → b ≠ (s.sign (tokenPayload s userID now)).get ⟨i, hi⟩ →
      ParseToken s now2 (b64encodeBytes (tokenPayload s userID now ++
        58 :: (s.sign (tokenPayload s userID now)).set i b)) = none) := by
  have hsig58 : 58 ∉ s.sign (tokenPayload s userID now) := by
    intro h
    exact (hsig 58 h).2 rfl
  have hparse : ∀ t : Int, ParseToken s t (IssueToken s userID now) =
      if now + s.ttl < t then none else some userID := by
    intro t
    unfold ParseToken IssueToken
    rw [b64_roundtrip _ (tokenRaw_bytes s userID now (fun b hb => (hsig b hb).1))]
    dsimp only
    rw [splitColon_tokenRaw s userID now hsig58]
    dsimp only
    rw [if_pos (show s.sign (intDecBytes userID ++ 58 :: intDecBytes (now + s.ttl)) =
      s.sign (tokenPayload s userID now) from rfl)]
    rw [parseInt64_intDecBytes userID huid1 huid2,
      parseInt64_intDecBytes (now + s.ttl) hexp1 hexp2]
  refine ⟨?_, ?_, ?_, ?_⟩
  · intro hlive
    rw [hparse now2, if_neg (by omega)]
  · intro hdead
    rw [hparse now2, if_pos hdead]
  · intro i hi b hb hbne
    apply parse_payload_ne s userID now now2 hsig hcoll
    · intro x hx
      rcases List.mem_or_eq_of_mem_set hx with hmem | rfl
      · exact tokenPayload_bytes s userID now x hmem
      · exact hb
    · exact set_ne_of_ne_get hi hbne
  · intro i hi b hb hbne
    apply parse_sig_ne s userID now now2
    · intro x hx
      rcases List.mem_or_eq_of_mem_set hx with hmem | rfl
      · exact (hsig x hmem).1
      · exact hb
    · exact set_ne_of_ne_get hi hbne

/-- C8 witness: a concrete strategy (ttl 50, a signing function mapping the
issued payload `7:150` to one digest and everything else to another) issues
a token at time 100 for user 7 that parses back to 7 at time 120 and fails
at time 151. -/
theorem token_roundtrip_spec_witness :
    ParseToken ⟨fun p => if p = [55, 58, 49, 53, 48] then [65] else [66], 50⟩ 120
      (IssueToken ⟨fun p => if p = [55, 58, 49, 53, 48] then [65] else [66], 50⟩ 7 100) =
      some 7 ∧
    ParseToken ⟨fun p => if p = [55, 58, 49, 53, 48] then [65] else [66], 50⟩ 151
      (IssueToken ⟨fun p => if p = [55, 58, 49, 53, 48] then [65] else [66], 50⟩ 7 100) =
      none := by
  have hpay : tokenPayload
      ⟨fun p => if p = [55, 58, 49, 53, 48] then [65] else [66], 50⟩ 7 100 =
      [55, 58, 49, 53, 48] := by decide
  have hsig : ∀ b ∈ (⟨fun p => if p = [55, 58, 49, 53, 48] then [65] else [66], 50⟩ :
      HMACStrategy).sign (tokenPayload
        ⟨fun p => if p = [55, 58, 49, 53, 48] then [65] else [66], 50⟩ 7 100),
      b < 256 ∧ b ≠ 58 := by
    rw [hpay]
    decide
  have hcoll : ∀ p, (⟨fun p => if p = [55, 58, 49, 53, 48] then [65] else [66], 50⟩ :
      HMACStrategy).sign p = (⟨fun p => if p = [55, 58, 49, 53, 48] then [65] else [66], 50⟩ :
      HMACStrategy).sign (tokenPayload
        ⟨fun p => if p = [55, 58, 49, 53, 48] then [65] else [66], 50⟩ 7 100) →
      p = tokenPayload ⟨fun p => if p = [55, 58, 49, 53, 48] then [65] else [66], 50⟩ 7 100 := by
    rw [hpay]
    intro p h
    by_cases hp : p = [55, 58, 49, 53, 48]
    · exact hp
    · rw [show ((⟨fun p => if p = [55, 58, 49, 53, 48] then [65] else [66], 50⟩ :
          HMACStrategy).sign p) = (if p = [55, 58, 49, 53, 48] then [65] else [66]) from rfl,
        if_neg hp] at h
      exact absurd h (by decide)
  exact ⟨(token_roundtrip_spec _ 7 100 120 hsig hcoll (by decide) (by decide)
      (by decide) (by decide)).1 (by decide),
    (token_roundtrip_spec _ 7 100 151 hsig hcoll (by decide) (by decide)
      (by decide) (by decide)).2.1 (by decide)⟩

end Gophermart
